import Mathlib

/-!
Verification development for the Scribbletune clip/pattern engine
(src/unnamed/part_000, i.e. the clip module of scribbletune).

Conventions of the shallow embedding:
* JS numbers are modelled as rationals (durations, random draws) or
  naturals/integers (counts, indices).  JS array indexing that can yield
  undefined is modelled with Option.
* JS exceptions are modelled with Except String; a thrown error carries
  the message string built by the source code.
* Math.random() is modelled by an explicit draw argument u with
  0 <= u < 1; Math.round x is the floor of x + 1/2 (JS rounds half up).
* The helpers expandStr, isNote and shuffle live in the repository's
  utils module which is not among the provided sources; they are
  modelled from the spec where marked.  External collaborators
  (the harmonics chord lookup, Tone.js tick conversion and the shuffle
  permutation) are passed in as explicit function arguments.
-/

/-- A parsed pattern token: a single character step, or a bracketed group
(nested array produced by the pattern parser). -/
inductive PatToken where
  | sym (c : Char)
  | group (g : List PatToken)

/-- Error message used by the modelled pattern parser for bracket errors.
The spec calls this error kind UnbalancedGroup. -/
def unbalancedMsg : String := "UnbalancedGroup"

/-- Modelled from the spec: the pattern parser half of the missing utils
module's expandStr.  Recursive descent over bracket nesting: characters
between a matching pair of brackets become a group; it fails with
UnbalancedGroup when brackets do not nest/close correctly.  The explicit
stack holds the (reversed) token lists of the currently open groups. -/
def parseTokens : List Char → List PatToken → List (List PatToken) → Except String (List PatToken)
  | [], acc, stack =>
    match stack with
    | [] => .ok acc.reverse
    | _ :: _ => .error unbalancedMsg
  | c :: rest, acc, stack =>
    if c = '[' then
      parseTokens rest [] (acc :: stack)
    else if c = ']' then
      match stack with
      | [] => .error unbalancedMsg
      | top :: stack2 => parseTokens rest (.group acc.reverse :: top) stack2
    else
      parseTokens rest (.sym c :: acc) stack

/-- Modelled from the spec: expandStr from the missing utils module, turning
a pattern string into the token tree (nested arrays in the source). -/
def expandStr (s : String) : Except String (List PatToken) :=
  parseTokens s.toList [] []

/-- Bracket balance checker (specification-side predicate for C5): d is the
number of currently open groups. -/
def bal : List Char → Nat → Bool
  | [], d => d == 0
  | c :: rest, d =>
    if c = '[' then bal rest (d + 1)
    else if c = ']' then
      match d with
      | 0 => false
      | e + 1 => bal rest e
    else bal rest d

/-- Mutation step for a tie: durations[durations.length - 1] += length,
i.e. add the unit to the last element of the list. -/
def bumpLast (u : ℚ) : List ℚ → List ℚ
  | [] => []
  | [d] => [d + u]
  | d :: rest => d :: bumpLast u rest

/-- recursivelyApplyPatternToDurations from the source: walks the token
tree, pushes the current unit for x and R, extends the last appended
duration on _ when one exists, and recurses into a group with the unit
divided by the group size.  The JS default argument durations = [] is
passed explicitly at call sites. -/
def recursivelyApplyPatternToDurations : List PatToken → ℚ → List ℚ → List ℚ
  | [], _, durations => durations
  | .sym c :: rest, len, durations =>
    let d1 := if c = 'x' ∨ c = 'R' then durations ++ [len] else durations
    let d2 := if c = '_' ∧ d1 ≠ [] then bumpLast len d1 else d1
    recursivelyApplyPatternToDurations rest len d2
  | .group g :: rest, len, durations =>
    recursivelyApplyPatternToDurations rest len
      (recursivelyApplyPatternToDurations g (len / (g.length : ℚ)) durations)

/-- totalPatternDuration from the source (numeric subdivOrLength branch;
the string branch first converts through Tone.Ticks().toSeconds(), an
external collaborator, and callers of this model apply that conversion
before calling): subdivOrLength * expandStr(pattern).length. -/
def totalPatternDuration (pattern : String) (subdivOrLength : ℚ) : Except String ℚ :=
  (expandStr pattern).map fun toks => subdivOrLength * (toks.length : ℚ)

/-- Fuel-indexed version of the while loop of leastCommonMultiple:
while (i % smallest !== 0) i += largest.  In JS, i % 0 is NaN which is
never 0, so the loop exits only when smallest is nonzero and divides i;
the fuel only bounds the number of checks and is chosen large enough at
the call site (proved sufficient below for positive inputs). -/
def lcmGo (smallest largest : ℕ) : ℕ → ℕ → ℕ
  | 0, i => i
  | fuel + 1, i =>
    if smallest ≠ 0 ∧ i % smallest = 0 then i
    else lcmGo smallest largest fuel (i + largest)

/-- leastCommonMultiple from the source: order the arguments, start i at
the larger one and add the larger one until the smaller divides i. -/
def leastCommonMultiple (n1 n2 : ℕ) : ℕ :=
  let smallest := min n1 n2
  let largest := max n1 n2
  lcmGo smallest largest (smallest + 1) largest

/-- The while loop of leastCommonMultiple exits after some number k of
increments, at i = largest + k * largest; in JS smallest = 0 makes the
condition i % smallest !== 0 into NaN !== 0 which is always true. -/
def lcmLoopTerminates (n1 n2 : ℕ) : Prop :=
  ∃ k : ℕ, min n1 n2 ≠ 0 ∧ (max n1 n2 + k * max n1 n2) % min n1 n2 = 0

/-- JS truthiness of randomNotes?.length: randomNotes is non-null and
non-empty. -/
def rnNonempty : Option (List (List String)) → Bool
  | none => false
  | some l => l.length != 0

/-- The patternNotesCount local of renderingDuration: the count of x
characters, plus the count of R characters unless randomNotes is
non-empty. -/
def patternNotesCount (pattern : String) (randomNotes : Option (List (List String))) : ℕ :=
  let patternRegularNotesCount := (pattern.toList.filter fun c => c = 'x').length
  let patternRandomNotesCount := (pattern.toList.filter fun c => c = 'R').length
  if rnNonempty randomNotes then patternRegularNotesCount
  else patternRegularNotesCount + patternRandomNotesCount

/-- The notesCount local of renderingDuration: notes.length || 1. -/
def jsNotesCount (notes : List (List String)) : ℕ :=
  if notes.length = 0 then 1 else notes.length

/-- renderingDuration from the source:
(totalPatternDuration / patternNotesCount) * lcm(notesCount, patternNotesCount).
The error case of the pattern parser propagates through the map. -/
def renderingDuration (pattern : String) (subdivOrLength : ℚ)
    (notes : List (List String)) (randomNotes : Option (List (List String))) :
    Except String ℚ :=
  (totalPatternDuration pattern subdivOrLength).map fun t =>
    t / (patternNotesCount pattern randomNotes : ℚ) *
      (leastCommonMultiple (jsNotesCount notes) (patternNotesCount pattern randomNotes) : ℚ)

/-- random from the source: Math.round(Math.random() * num), with the
Math.random draw u made explicit.  Math.round rounds half towards
positive infinity, i.e. floor (x + 1/2). -/
def random (u : ℚ) (num : ℤ) : ℤ :=
  ⌊u * (num : ℚ) + 1 / 2⌋

/-- JS array indexing arr[i] for an integer index: undefined (none) when
the index is negative or past the end. -/
def jsIndex (l : List (List String)) (i : ℤ) : Option (List String) :=
  if i < 0 then none else l.get? i.toNat

/-- getNote from the source: for an R step with a non-null randomNotes,
index randomNotes at random(randomNotes.length - 1); otherwise cycle
notes at counter % notes.length.  JS truthiness of an array is non-null
(an empty array is truthy). -/
def getNote (u : ℚ) (el : Char) (notes : List (List String))
    (randomNotes : Option (List (List String))) (counter : ℕ) : Option (List String) :=
  if el = 'R' ∧ randomNotes ≠ none then
    jsIndex (randomNotes.getD []) (random u (((randomNotes.getD []).length : ℤ) - 1))
  else
    notes.get? (counter % notes.length)

/-- Modelled from the spec: isNote from the missing utils module, the
pitch-name grammar: letter A-G (either case), an optional accidental
(sharp or flat), then an octave number. -/
def isNote (s : String) : Bool :=
  match s.toList with
  | [] => false
  | c :: rest =>
    let body := match rest with
      | a :: r => if a = '#' ∨ a = 'b' then r else rest
      | [] => []
    "ABCDEFGabcdefg".toList.contains c && body.length != 0 && body.all Char.isDigit

/-- One element of a notes list before resolution: a plain token (note
name or chord name) or an array of note names (a chord voicing). -/
inductive NoteToken where
  | tok (s : String)
  | arr (l : List String)

/-- The notes (or randomNotes) parameter before resolution: a single
string to be split on spaces, or a list of elements. -/
inductive NotesInput where
  | str (s : String)
  | list (l : List NoteToken)

/-- convertChordsToNotes from the source: a valid note becomes a singleton
list; an array must comprise valid notes and is kept; anything else goes
through the external chord lookup (given as chordFn) and fails when the
lookup returns nothing. -/
def convertChordsToNotes (chordFn : String → List String) : NoteToken → Except String (List String)
  | .tok s =>
    if isNote s then .ok [s]
    else if (chordFn s).length ≠ 0 then .ok (chordFn s)
    else .error ("Chord " ++ s ++ " not found")
  | .arr l =>
    if l.all isNote then .ok l
    else .error "array must comprise valid notes"

/-- Collapse runs of two or more spaces to one, modelling the
replace(double-whitespace, single space) preprocessing of notes strings. -/
def collapseSpaces : List Char → List Char
  | [] => []
  | ' ' :: ' ' :: rest => collapseSpaces (' ' :: rest)
  | c :: rest => c :: collapseSpaces rest

/-- Split a notes string into tokens: collapse repeated spaces, then split
on single spaces (the source splits notes on a space and randomNotes on
single whitespace; both are the space split after collapsing). -/
def splitSpaces (s : String) : List String :=
  (String.mk (collapseSpaces s.toList)).splitOn " "

/-- Notes preprocessing of clip: a string is split into tokens, then every
element is mapped through convertChordsToNotes. -/
def resolveNotes (chordFn : String → List String) : NotesInput → Except String (List (List String))
  | .str s => ((splitSpaces s).map NoteToken.tok).mapM (convertChordsToNotes chordFn)
  | .list l => l.mapM (convertChordsToNotes chordFn)

/-- randomNotes preprocessing of clip: absent (or an empty string, which
is falsy so both if blocks are skipped and it never reaches getNote as an
array) stays absent; a non-empty string is split; a list is mapped
through convertChordsToNotes. -/
def resolveRandomNotes (chordFn : String → List String) :
    Option NotesInput → Except String (Option (List (List String)))
  | none => .ok none
  | some (.str s) =>
    if s = "" then .ok none
    else (((splitSpaces s).map NoteToken.tok).mapM (convertChordsToNotes chordFn)).map some
  | some (.list l) => (l.mapM (convertChordsToNotes chordFn)).map some

/-- The caller-supplied clip parameters (fields absent unless given); the
seven event-source fields hold external backend objects in the source and
are modelled by their JS truthiness, the only thing the engine's checks
read from them.  The effects list and the Tone.js side of the params are
external collaborators and are not part of the model. -/
structure ClipParams where
  notes : Option NotesInput := none
  pattern : Option String := none
  shuffle : Option Bool := none
  subdiv : Option String := none
  amp : Option ℕ := none
  accentLow : Option ℕ := none
  sizzle : Option Bool := none
  sizzleReps : Option ℕ := none
  arpegiate : Option Bool := none
  randomNotes : Option NotesInput := none
  offlineRendering : Option Bool := none
  dur : Option ℚ := none
  durations : Option (List ℚ) := none
  player : Bool := false
  instrument : Bool := false
  sample : Bool := false
  buffer : Bool := false
  synth : Bool := false
  sampler : Bool := false
  samples : Bool := false

/-- The params object after the merge with getDefaultParams() at the top
of clip. -/
structure MergedParams where
  notes : NotesInput
  pattern : String
  shuffle : Bool
  subdiv : String
  randomNotes : Option NotesInput
  offlineRendering : Bool
  dur : Option ℚ
  durations : Option (List ℚ)
  player : Bool
  instrument : Bool
  sample : Bool
  buffer : Bool
  synth : Bool
  sampler : Bool
  samples : Bool

/-- The spread merge of getDefaultParams() with the caller's params:
defaults are notes ['C4'], pattern 'x', shuffle false, subdiv '4n',
randomNotes null, offlineRendering false; dur and durations have no
default. -/
def mergeDefaults (p : ClipParams) : MergedParams :=
  { notes := p.notes.getD (.list [.tok "C4"])
    pattern := p.pattern.getD "x"
    shuffle := p.shuffle.getD false
    subdiv := p.subdiv.getD "4n"
    randomNotes := p.randomNotes
    offlineRendering := p.offlineRendering.getD false
    dur := p.dur
    durations := p.durations
    player := p.player
    instrument := p.instrument
    sample := p.sample
    buffer := p.buffer
    synth := p.synth
    sampler := p.sampler
    samples := p.samples }

/-- The params fields read by generateSequence when it validates and
builds the Tone.Sequence (pattern may be absent when generateSequence is
called directly; clip always passes a string). -/
structure GenParams where
  pattern : Option String := none
  subdiv : Option String := none
  dur : Option ℚ := none
  durations : Option (List ℚ) := none
  player : Bool := false
  instrument : Bool := false
  sample : Bool := false
  buffer : Bool := false
  synth : Bool := false
  sampler : Bool := false
  samples : Bool := false

/-- The data of the Tone.Sequence returned by generateSequence: the
expanded pattern used as events, the durations list (computed from the
pattern when neither durations nor dur was given), and the subdivision.
The instrument/effects wiring is an external side effect of the
collaborator and is outside the model. -/
structure SeqData where
  events : List PatToken
  durations : Option (List ℚ)
  dur : Option ℚ
  subdivision : String

/-- What clip returns: an offline-rendering player sized by
renderingDuration, or a Tone.Sequence. -/
inductive ClipOutput where
  | player (duration : ℚ)
  | seq (s : SeqData)

/-- generateSequence from the source, with tts standing for the external
Tone.Ticks(subdiv).toSeconds() conversion: fails when the pattern is
falsy (absent or empty), then when none of the seven event-source fields
is set; otherwise computes durations from the pattern when neither
durations nor dur was provided, and returns the sequence data whose
events are the expanded pattern. -/
def generateSequence (tts : String → ℚ) (p : GenParams) : Except String SeqData :=
  if p.pattern = none ∨ p.pattern = some "" then
    .error "No pattern provided!"
  else if p.player = false ∧ p.instrument = false ∧ p.sample = false ∧ p.buffer = false ∧
      p.synth = false ∧ p.sampler = false ∧ p.samples = false then
    .error "No player or instrument provided!"
  else
    let pat := p.pattern.getD ""
    match expandStr pat with
    | .error e => .error e
    | .ok toks =>
      let durations :=
        if p.durations = none ∧ p.dur = none then
          some (recursivelyApplyPatternToDurations toks (tts (p.subdiv.getD "4n")) [])
        else p.durations
      .ok { events := toks, durations := durations, dur := p.dur, subdivision := p.subdiv.getD "4n" }

/-- The GenParams view of merged clip params with the resolved pattern. -/
def toGenParams (q : MergedParams) : GenParams :=
  { pattern := some q.pattern
    subdiv := some q.subdiv
    dur := q.dur
    durations := q.durations
    player := q.player
    instrument := q.instrument
    sample := q.sample
    buffer := q.buffer
    synth := q.synth
    sampler := q.sampler
    samples := q.samples }

/-- The pattern alphabet test of clip: the regex [^x\-_\[\]R] matches iff
some character lies outside the legal set. -/
def hasInvalidPatternChar (pattern : String) : Bool :=
  pattern.toList.any fun c => !("x-_[]R".toList.contains c)

/-- The error text thrown by clip on an invalid pattern character. -/
def mkPatternError (pattern : String) : String :=
  "pattern can only comprise x - _ [ ], found " ++ pattern

/-- clip from the source: merge defaults, split and resolve notes, check
the pattern alphabet, shuffle notes when asked (shuffleFn is the external
permutation), split and resolve randomNotes, then either size an offline
render by renderingDuration or build the sequence.  chordFn is the
external chord lookup and tts the external tick-to-seconds conversion;
the Tone.js object plumbing of the source is an external side effect. -/
def clip (chordFn : String → List String)
    (shuffleFn : List (List String) → List (List String))
    (tts : String → ℚ) (params : ClipParams) : Except String ClipOutput :=
  let q := mergeDefaults params
  match resolveNotes chordFn q.notes with
  | .error e => .error e
  | .ok resolved =>
    if hasInvalidPatternChar q.pattern then
      .error (mkPatternError q.pattern)
    else
      let resolved2 := if q.shuffle then shuffleFn resolved else resolved
      match resolveRandomNotes chordFn q.randomNotes with
      | .error e => .error e
      | .ok rn =>
        if q.offlineRendering then
          (renderingDuration q.pattern (tts q.subdiv) resolved2 rn).map ClipOutput.player
        else
          (generateSequence tts (toGenParams q)).map ClipOutput.seq


example : expandStr "x[xx]x" = .ok [.sym 'x', .group [.sym 'x', .sym 'x'], .sym 'x'] := rfl
example : expandStr "[x" = .error unbalancedMsg := rfl
example : expandStr "x]" = .error unbalancedMsg := rfl
example : leastCommonMultiple 4 6 = 12 := by decide
example : isNote "C4" = true := rfl
example : isNote "Bb3" = true := rfl
example : isNote "foo" = false := rfl

/-- Invariant of the lcm while loop: starting from a positive multiple of
largest that has not yet passed the least common multiple, with enough
fuel to reach it, the loop returns exactly the least common multiple. -/
lemma lcmGo_spec (s l : ℕ) (hs : 0 < s) :
    ∀ fuel i, 0 < i → l ∣ i → i ≤ Nat.lcm s l → Nat.lcm s l ≤ i + fuel * l →
      lcmGo s l fuel i = Nat.lcm s l := by
  intro fuel
  induction fuel with
  | zero =>
    intro i _ _ hle hge
    simp only [Nat.zero_mul, Nat.add_zero] at hge
    simp only [lcmGo]
    omega
  | succ fuel ih =>
    intro i hi hdvd hle hge
    rw [lcmGo]
    by_cases h : s ≠ 0 ∧ i % s = 0
    · rw [if_pos h]
      have hsd : s ∣ i := Nat.dvd_of_mod_eq_zero h.2
      have hlcm : Nat.lcm s l ∣ i := Nat.lcm_dvd hsd hdvd
      have := Nat.le_of_dvd hi hlcm
      omega
    · rw [if_neg h]
      have hmod : i % s ≠ 0 := by
        intro hmod
        exact h ⟨Nat.pos_iff_ne_zero.mp hs, hmod⟩
      have hns : ¬ s ∣ i := by
        intro hd
        exact hmod (Nat.dvd_iff_mod_eq_zero.mp hd)
      have hl : 0 < l := by
        rcases Nat.eq_zero_or_pos l with h0 | h0
        · subst h0
          obtain ⟨a, ha⟩ := hdvd
          omega
        · exact h0
      have hne : i ≠ Nat.lcm s l := by
        intro he
        exact hns (he ▸ Nat.dvd_lcm_left s l)
      have hlt : i < Nat.lcm s l := lt_of_le_of_ne hle hne
      obtain ⟨a, ha⟩ := hdvd
      obtain ⟨b, hb⟩ := Nat.dvd_lcm_right s l
      have hab : a < b := by
        apply Nat.lt_of_mul_lt_mul_left (a := l)
        omega
      have hstep : i + l ≤ Nat.lcm s l := by
        have : l * (a + 1) ≤ l * b := Nat.mul_le_mul_left l hab
        rw [Nat.mul_succ] at this
        omega
      apply ih (i + l) (by omega) ⟨a + 1, by rw [ha, Nat.mul_succ]⟩ hstep
      rw [Nat.succ_mul] at hge
      omega

/-- For positive arguments the source's loop computes the least common
multiple. -/
lemma leastCommonMultiple_eq_lcm (n1 n2 : ℕ) (h1 : 0 < n1) (h2 : 0 < n2) :
    leastCommonMultiple n1 n2 = Nat.lcm n1 n2 := by
  unfold leastCommonMultiple
  have hs : 0 < min n1 n2 := lt_min h1 h2
  have hl : 0 < max n1 n2 := lt_max_iff.mpr (Or.inl h1)
  have key : lcmGo (min n1 n2) (max n1 n2) (min n1 n2 + 1) (max n1 n2) =
      Nat.lcm (min n1 n2) (max n1 n2) := by
    apply lcmGo_spec _ _ hs _ _ hl (dvd_refl _)
    · exact Nat.le_of_dvd (Nat.lcm_pos hs hl) (Nat.dvd_lcm_right _ _)
    · have hle : Nat.lcm (min n1 n2) (max n1 n2) ≤ min n1 n2 * max n1 n2 :=
        Nat.le_of_dvd (Nat.mul_pos hs hl) (Nat.lcm_dvd_mul _ _)
      rw [Nat.succ_mul]
      omega
  rw [key]
  rcases le_total n1 n2 with h | h
  · rw [min_eq_left h, max_eq_right h]
  · rw [min_eq_right h, max_eq_left h, Nat.lcm_comm]

/-- A filtered list has positive length exactly when some element
satisfies the filter. -/
lemma filter_length_pos_iff {p : Char → Bool} (l : List Char) :
    0 < (l.filter p).length ↔ ∃ c ∈ l, p c = true := by
  induction l with
  | nil => simp
  | cons c r ih =>
    by_cases h : p c
    · simp [List.filter_cons, h]
    · simp [List.filter_cons, h, ih]

/-- C10: for all strictly positive integers a and b the while loop of
leastCommonMultiple terminates (it exits after finitely many additions of
the larger argument) and returns the least common multiple of a and b;
termination requires strict positivity of both arguments (with a zero
argument the JS condition i % 0 !== 0 is NaN !== 0, always true); inside
renderingDuration the first lcm argument notesCount is always positive
and the second, patternNotesCount, is positive exactly when the pattern
has at least one counted sounding step (an x, or an R when randomNotes is
not non-empty). -/
theorem leastCommonMultiple_terminates_and_correct :
    (∀ a b : ℕ, 0 < a → 0 < b →
      lcmLoopTerminates a b ∧ leastCommonMultiple a b = Nat.lcm a b) ∧
    (∀ a b : ℕ, lcmLoopTerminates a b → 0 < a ∧ 0 < b) ∧
    (∀ notes, 0 < jsNotesCount notes) ∧
    (∀ pattern randomNotes, 0 < patternNotesCount pattern randomNotes ↔
      ∃ c ∈ pattern.toList, c = 'x' ∨ (c = 'R' ∧ rnNonempty randomNotes = false)) := by
  refine ⟨?term, ?nec, ?notesPos, ?stepPos⟩
  case term =>
    intro a b ha hb
    constructor
    · have hmin : 0 < min a b := lt_min ha hb
      have hmax : 0 < max a b := lt_max_iff.mpr (Or.inl ha)
      have hdvdMax : max a b ∣ Nat.lcm a b := by
        rcases le_total a b with h | h
        · rw [max_eq_right h]; exact Nat.dvd_lcm_right a b
        · rw [max_eq_left h]; exact Nat.dvd_lcm_left a b
      have hdvdMin : min a b ∣ Nat.lcm a b := by
        rcases le_total a b with h | h
        · rw [min_eq_left h]; exact Nat.dvd_lcm_left a b
        · rw [min_eq_right h]; exact Nat.dvd_lcm_right a b
      obtain ⟨m, hm⟩ := hdvdMax
      have hpos : 0 < Nat.lcm a b := Nat.lcm_pos ha hb
      have hm1 : 1 ≤ m := by
        rcases Nat.eq_zero_or_pos m with h0 | h0
        · subst h0; omega
        · exact h0
      refine ⟨m - 1, Nat.pos_iff_ne_zero.mp hmin, ?_⟩
      have : max a b + (m - 1) * max a b = Nat.lcm a b := by
        have : max a b + (m - 1) * max a b = m * max a b := by
          cases m with
          | zero => omega
          | succ k => simp [Nat.succ_mul]; ring
        rw [this, hm]; ring
      rw [this]
      exact Nat.dvd_iff_mod_eq_zero.mp hdvdMin
    · exact leastCommonMultiple_eq_lcm a b ha hb
  case nec =>
    intro a b ⟨k, hne, _⟩
    rcases Nat.eq_zero_or_pos (min a b) with h0 | h0
    · exact absurd h0 hne
    · exact ⟨lt_of_lt_of_le h0 (min_le_left a b), lt_of_lt_of_le h0 (min_le_right a b)⟩
  case notesPos =>
    intro notes
    unfold jsNotesCount
    split <;> omega
  case stepPos =>
    intro pattern randomNotes
    unfold patternNotesCount
    rcases Bool.eq_false_or_eq_true (rnNonempty randomNotes) with hrn | hrn
    · rw [if_pos hrn, filter_length_pos_iff]
      constructor
      · rintro ⟨c, hc, he⟩
        exact ⟨c, hc, Or.inl (by simpa using he)⟩
      · rintro ⟨c, hc, he | ⟨_, hfalse⟩⟩
        · exact ⟨c, hc, by simp [he]⟩
        · rw [hrn] at hfalse
          exact Bool.noConfusion hfalse
    · rw [if_neg (by simp [hrn])]
      constructor
      · intro hpos
        have hor : 0 < (pattern.toList.filter fun c => c = 'x').length ∨
            0 < (pattern.toList.filter fun c => c = 'R').length := by omega
        rcases hor with hx | hR
        · obtain ⟨c, hc, he⟩ := (filter_length_pos_iff _).mp hx
          exact ⟨c, hc, Or.inl (by simpa using he)⟩
        · obtain ⟨c, hc, he⟩ := (filter_length_pos_iff _).mp hR
          exact ⟨c, hc, Or.inr ⟨by simpa using he, hrn⟩⟩
      · rintro ⟨c, hc, he | ⟨he, _⟩⟩
        · have hx : 0 < (pattern.toList.filter fun c => c = 'x').length :=
            (filter_length_pos_iff _).mpr ⟨c, hc, by simp [he]⟩
          omega
        · have hR : 0 < (pattern.toList.filter fun c => c = 'R').length :=
            (filter_length_pos_iff _).mpr ⟨c, hc, by simp [he]⟩
          omega

/-- C10 witness: at the concrete input 4 and 6 both hypotheses hold, the
loop terminates and returns lcm 4 6 = 12. -/
theorem leastCommonMultiple_terminates_and_correct_witness :
    lcmLoopTerminates 4 6 ∧ leastCommonMultiple 4 6 = Nat.lcm 4 6 ∧
      leastCommonMultiple 4 6 = 12 :=
  ⟨(leastCommonMultiple_terminates_and_correct.1 4 6 (by decide) (by decide)).1,
   (leastCommonMultiple_terminates_and_correct.1 4 6 (by decide) (by decide)).2,
   by decide⟩

/-- C1: for every pattern with at least one counted sounding step and a
non-empty notes list, renderingDuration equals
(totalPatternDuration / s) * lcm(notes.length, s), where s is the count
of x plus R characters, R excluded when randomNotes is non-empty (s is
patternNotesCount, which is exactly that count). -/
theorem renderingDuration_formula (pattern : String) (subdivOrLength : ℚ)
    (notes : List (List String)) (randomNotes : Option (List (List String)))
    (hs : 0 < patternNotesCount pattern randomNotes) (hn : notes ≠ []) :
    renderingDuration pattern subdivOrLength notes randomNotes =
      (totalPatternDuration pattern subdivOrLength).map
        (fun t => t / (patternNotesCount pattern randomNotes : ℚ) *
          (Nat.lcm notes.length (patternNotesCount pattern randomNotes) : ℚ)) := by
  have h1 : jsNotesCount notes = notes.length := by
    unfold jsNotesCount
    rw [if_neg]
    simpa using hn
  unfold renderingDuration
  rw [h1, leastCommonMultiple_eq_lcm _ _ (List.length_pos.mpr hn) hs]

/-- C1 witness: for the pattern xxxx (s = 4) with six notes, the render
duration is lcm(4,6)/4 = 3 full pattern durations: total pattern duration
4 and rendering duration 12. -/
theorem renderingDuration_formula_witness :
    0 < patternNotesCount "xxxx" none ∧
    ([["C4"], ["D4"], ["E4"], ["F4"], ["G4"], ["A4"]] : List (List String)) ≠ [] ∧
    renderingDuration "xxxx" 1 [["C4"], ["D4"], ["E4"], ["F4"], ["G4"], ["A4"]] none =
      (totalPatternDuration "xxxx" 1).map
        (fun t => t / (patternNotesCount "xxxx" none : ℚ) *
          (Nat.lcm ([["C4"], ["D4"], ["E4"], ["F4"], ["G4"], ["A4"]] : List (List String)).length
            (patternNotesCount "xxxx" none) : ℚ)) ∧
    renderingDuration "xxxx" 1 [["C4"], ["D4"], ["E4"], ["F4"], ["G4"], ["A4"]] none = .ok 12 ∧
    totalPatternDuration "xxxx" 1 = .ok 4 ∧ (12 : ℚ) = 3 * 4 :=
  ⟨by decide, by decide,
   renderingDuration_formula "xxxx" 1 _ none (by decide) (by decide),
   by simp [renderingDuration, totalPatternDuration, expandStr, parseTokens,
     patternNotesCount, jsNotesCount, leastCommonMultiple, lcmGo, rnNonempty, Except.map],
   by simp [totalPatternDuration, expandStr, parseTokens, Except.map],
   by norm_num⟩

/-- Adding the unit to the last element of a list with an explicit last
element. -/
lemma bumpLast_append (u d : ℚ) (ds : List ℚ) :
    bumpLast u (ds ++ [d]) = ds ++ [d + u] := by
  induction ds with
  | nil => simp [bumpLast]
  | cons a rest ih =>
    cases rest with
    | nil => simp [bumpLast]
    | cons b r =>
      simp only [List.cons_append] at ih ⊢
      rw [show bumpLast u (a :: b :: (r ++ [d])) = a :: bumpLast u (b :: (r ++ [d])) from rfl, ih]

/-- C2: a tie that follows at least one already-appended duration appends
no new duration and instead adds the current unit to the most recently
appended duration; in particular the pattern x_ with unit u yields [2u]
and x__ with unit 1 yields [3]. -/
theorem tie_extends_last_duration (rest : List PatToken) (len : ℚ) (ds : List ℚ) (d : ℚ) :
    recursivelyApplyPatternToDurations (.sym '_' :: rest) len (ds ++ [d]) =
      recursivelyApplyPatternToDurations rest len (ds ++ [d + len]) ∧
    (ds ++ [d + len]).length = (ds ++ [d]).length ∧
    (∀ u : ℚ, recursivelyApplyPatternToDurations [.sym 'x', .sym '_'] u [] = [2 * u]) ∧
    recursivelyApplyPatternToDurations [.sym 'x', .sym '_', .sym '_'] 1 [] = [3] := by
  refine ⟨?ext, by simp, ?xu, ?xuu⟩
  case ext =>
    simp only [recursivelyApplyPatternToDurations]
    rw [if_neg (by decide : ¬('_' = 'x' ∨ '_' = 'R'))]
    rw [if_pos (show True ∧ ds ++ [d] ≠ [] from ⟨trivial, by simp⟩), bumpLast_append]
  case xu =>
    intro u
    simp [recursivelyApplyPatternToDurations, bumpLast, two_mul]
  case xuu =>
    simp [recursivelyApplyPatternToDurations, bumpLast]
    norm_num

/-- C3: a group of k members recurses with the unit divided by k for its
members (hence nested groups subdivide geometrically); in particular the
pattern [xx]x with unit 4 yields [2, 2, 4]. -/
theorem group_divides_unit (g rest : List PatToken) (u : ℚ) (ds : List ℚ) :
    recursivelyApplyPatternToDurations (.group g :: rest) u ds =
      recursivelyApplyPatternToDurations rest u
        (recursivelyApplyPatternToDurations g (u / (g.length : ℚ)) ds) ∧
    recursivelyApplyPatternToDurations [.group [.sym 'x', .sym 'x'], .sym 'x'] 4 [] =
      [2, 2, 4] := by
  constructor
  · simp only [recursivelyApplyPatternToDurations]
  · simp [recursivelyApplyPatternToDurations, bumpLast]
    norm_num

/-- C9: ties at the start of a pattern, before any duration has been
appended, are silent no-ops: the output equals the output for the same
pattern with the leading ties removed (and the function is total, so no
error is raised). -/
theorem leading_ties_are_noops (n : ℕ) (rest : List PatToken) (len : ℚ) :
    recursivelyApplyPatternToDurations (List.replicate n (.sym '_') ++ rest) len [] =
      recursivelyApplyPatternToDurations rest len [] := by
  induction n with
  | zero => simp
  | succ n ih =>
    rw [List.replicate_succ, List.cons_append]
    simp only [recursivelyApplyPatternToDurations]
    norm_num
    exact ih

/-- C7: pitch cycling is periodic with period the notes-list size: for an
x step, getNote returns the same note at counter i and i + notes.length
(selection is counter mod notes.length). -/
theorem pitch_cycling_periodic (u : ℚ) (notes : List (List String))
    (randomNotes : Option (List (List String))) (counter : ℕ) :
    getNote u 'x' notes randomNotes (counter + notes.length) =
      getNote u 'x' notes randomNotes counter := by
  simp only [getNote]
  rw [if_neg (by simp), if_neg (by simp), Nat.add_mod_right]

/-- When the brackets of the remaining input do not balance against the
current stack depth, the parser returns the UnbalancedGroup error. -/
lemma parseTokens_unbalanced :
    ∀ cs acc stack, bal cs stack.length = false →
      parseTokens cs acc stack = .error unbalancedMsg := by
  intro cs
  induction cs with
  | nil =>
    intro acc stack hb
    cases stack with
    | nil => simp [bal] at hb
    | cons top rest => simp [parseTokens]
  | cons c cs ih =>
    intro acc stack hb
    by_cases h1 : c = '['
    · subst h1
      rw [show parseTokens ('[' :: cs) acc stack = parseTokens cs [] (acc :: stack) from by
        simp [parseTokens]]
      apply ih
      have hs : bal ('[' :: cs) stack.length = bal cs (stack.length + 1) := by simp [bal]
      rw [hs] at hb
      simpa using hb
    · by_cases h2 : c = ']'
      · subst h2
        cases stack with
        | nil => simp [parseTokens]
        | cons top stack2 =>
          rw [show parseTokens (']' :: cs) acc (top :: stack2) =
              parseTokens cs (.group acc.reverse :: top) stack2 from by simp [parseTokens]]
          apply ih
          have hs : bal (']' :: cs) (top :: stack2).length = bal cs stack2.length := by
            simp [bal]
          rw [hs] at hb
          exact hb
      · rw [show parseTokens (c :: cs) acc stack = parseTokens cs (.sym c :: acc) stack from by
          simp [parseTokens, h1, h2]]
        apply ih
        have hs : bal (c :: cs) stack.length = bal cs stack.length := by simp [bal, h1, h2]
        rw [hs] at hb
        exact hb

/-- The default notes list ['C4'] always resolves, whatever the chord
lookup is, because C4 is a valid note name. -/
lemma resolveNotes_default (cf : String → List String) :
    resolveNotes cf (NotesInput.list [NoteToken.tok "C4"]) = .ok [["C4"]] := rfl

/-- The pattern-alphabet test fails exactly when some pattern character
lies outside x - _ [ ] R. -/
lemma hasInvalidPatternChar_iff (p : String) :
    hasInvalidPatternChar p = true ↔ ∃ c ∈ p.toList, ¬ c ∈ "x-_[]R".toList := by
  unfold hasInvalidPatternChar
  simp [List.any_eq_true, List.contains, List.elem_iff]

/-- C5: for every pattern string over the pattern alphabet whose brackets
do not nest and close correctly, clip compilation (with an instrument
present so that validation reaches the pattern expansion) fails with the
UnbalancedGroup error of the pattern parser. -/
theorem clip_unbalanced_group_fails (cf : String → List String)
    (sf : List (List String) → List (List String)) (tts : String → ℚ) (p : String)
    (halpha : ∀ c ∈ p.toList, c ∈ "x-_[]R".toList)
    (hbal : bal p.toList 0 = false) :
    clip cf sf tts { pattern := some p, instrument := true } = .error unbalancedMsg := by
  have hne : p ≠ "" := by
    intro he
    subst he
    simp [bal] at hbal
  have hval : hasInvalidPatternChar p = false := by
    cases hh : hasInvalidPatternChar p
    · rfl
    · obtain ⟨c, hc, hnc⟩ := (hasInvalidPatternChar_iff p).mp hh
      exact absurd (halpha c hc) hnc
  have hexp : expandStr p = .error unbalancedMsg :=
    parseTokens_unbalanced p.toList [] [] (by simpa using hbal)
  have hq : mergeDefaults { pattern := some p, instrument := true } =
      { notes := .list [.tok "C4"], pattern := p, shuffle := false, subdiv := "4n",
        randomNotes := none, offlineRendering := false, dur := none, durations := none,
        player := false, instrument := true, sample := false, buffer := false,
        synth := false, sampler := false, samples := false } := rfl
  have hrn : resolveRandomNotes cf none = .ok none := rfl
  simp only [clip, hq, resolveNotes_default, hval, Bool.false_eq_true, if_false, hrn]
  unfold generateSequence toGenParams
  rw [if_neg (by simp [hne] : ¬((some p : Option String) = none ∨ (some p : Option String) = some ""))]
  rw [if_neg (by simp : ¬(false = false ∧ true = false ∧ false = false ∧ false = false ∧
    false = false ∧ false = false ∧ false = false))]
  simp only [Option.getD_some]
  rw [hexp]
  rfl


/-- C5 witness: the unbalanced patterns [x and x] are over the alphabet,
fail the balance check, and make clip fail with UnbalancedGroup. -/
theorem clip_unbalanced_group_fails_witness :
    (∀ c ∈ "[x".toList, c ∈ "x-_[]R".toList) ∧ bal "[x".toList 0 = false ∧
    clip (fun _ => []) (fun l => l) (fun _ => 0) { pattern := some "[x", instrument := true } =
      .error unbalancedMsg ∧
    clip (fun _ => []) (fun l => l) (fun _ => 0) { pattern := some "x]", instrument := true } =
      .error unbalancedMsg :=
  ⟨by decide, by decide,
   clip_unbalanced_group_fails (fun _ => []) (fun l => l) (fun _ => 0) "[x"
     (by decide) (by decide),
   clip_unbalanced_group_fails (fun _ => []) (fun l => l) (fun _ => 0) "x]"
     (by decide) (by decide)⟩

/-- C4 counterexample: for the pattern xy- of the claim, clip fails with
the message "pattern can only comprise x - _ [ ], found xy-", which
echoes the whole pattern and contains no digit at all, so it does not
identify the offending index 1 (nor single out the character y beyond
echoing the input). -/
theorem clip_invalid_char_counterexample :
    clip (fun _ => []) (fun l => l) (fun _ => 0) { pattern := some "xy-" } =
      .error "pattern can only comprise x - _ [ ], found xy-" ∧
    (∀ c ∈ "pattern can only comprise x - _ [ ], found xy-".toList, ¬ c.isDigit) :=
  ⟨rfl, by decide⟩

/-- C4 (amended): for every pattern string containing a character outside
the alphabet x - _ [ ] R, clip compilation fails with a TypeError whose
message is "pattern can only comprise x - _ [ ], found " followed by the
whole pattern string; the message does not name the offending character
or its index separately. -/
theorem clip_invalid_char_fails (cf : String → List String)
    (sf : List (List String) → List (List String)) (tts : String → ℚ) (p : String)
    (hbad : ∃ c ∈ p.toList, ¬ c ∈ "x-_[]R".toList) :
    clip cf sf tts { pattern := some p } = .error (mkPatternError p) := by
  have hval : hasInvalidPatternChar p = true := (hasInvalidPatternChar_iff p).mpr hbad
  have hq : mergeDefaults { pattern := some p } =
      { notes := .list [.tok "C4"], pattern := p, shuffle := false, subdiv := "4n",
        randomNotes := none, offlineRendering := false, dur := none, durations := none,
        player := false, instrument := false, sample := false, buffer := false,
        synth := false, sampler := false, samples := false } := rfl
  simp only [clip, hq, resolveNotes_default, hval, if_true]

/-- C4 witness: the amended claim applied at the pattern xy- of the
claim. -/
theorem clip_invalid_char_fails_witness :
    (∃ c ∈ "xy-".toList, ¬ c ∈ "x-_[]R".toList) ∧
    clip (fun _ => []) (fun l => l) (fun _ => 0) { pattern := some "xy-" } =
      .error (mkPatternError "xy-") :=
  ⟨by decide, clip_invalid_char_fails (fun _ => []) (fun l => l) (fun _ => 0) "xy-" (by decide)⟩

/-- C8: generateSequence raises an error whenever the pattern is absent
or empty, or none of the seven event-source fields (player, instrument,
sample, buffer, synth, sampler, samples) is set; the result is an Except
error, so no partial event sequence is produced, and the source check
reads nothing but the presence of those fields (modelled as booleans). -/
theorem generateSequence_validation (tts : String → ℚ) (p : GenParams)
    (h : (p.pattern = none ∨ p.pattern = some "") ∨
      (p.player = false ∧ p.instrument = false ∧ p.sample = false ∧ p.buffer = false ∧
       p.synth = false ∧ p.sampler = false ∧ p.samples = false)) :
    generateSequence tts p = .error "No pattern provided!" ∨
    generateSequence tts p = .error "No player or instrument provided!" := by
  unfold generateSequence
  rcases h with h | h
  · rw [if_pos h]
    exact Or.inl rfl
  · by_cases h1 : p.pattern = none ∨ p.pattern = some ""
    · rw [if_pos h1]
      exact Or.inl rfl
    · rw [if_neg h1, if_pos h]
      exact Or.inr rfl

/-- C8 witness: with no parameters at all the pattern is absent and
generateSequence errors; with a pattern but no event source it errors
with the no-player message. -/
theorem generateSequence_validation_witness :
    (generateSequence (fun _ => (0 : ℚ)) {} = .error "No pattern provided!" ∨
     generateSequence (fun _ => (0 : ℚ)) {} = .error "No player or instrument provided!") ∧
    (generateSequence (fun _ => (0 : ℚ)) { pattern := some "x" } =
        .error "No pattern provided!" ∨
     generateSequence (fun _ => (0 : ℚ)) { pattern := some "x" } =
        .error "No player or instrument provided!") ∧
    generateSequence (fun _ => (0 : ℚ)) { pattern := some "x" } =
      .error "No player or instrument provided!" :=
  ⟨generateSequence_validation (fun _ => (0 : ℚ)) {} (Or.inl (Or.inl rfl)),
   generateSequence_validation (fun _ => (0 : ℚ)) { pattern := some "x" }
     (Or.inr ⟨rfl, rfl, rfl, rfl, rfl, rfl, rfl⟩),
   rfl⟩

/-- For a draw u in [0,1) and a positive source size n, the index
Math.round(u * (n - 1)) lies in [0, n). -/
lemma random_bounds (u : ℚ) (n : ℕ) (h0 : 0 ≤ u) (h1 : u < 1) (hn : 0 < n) :
    0 ≤ random u ((n : ℤ) - 1) ∧ random u ((n : ℤ) - 1) < n := by
  unfold random
  have hcast : (((n : ℤ) - 1 : ℤ) : ℚ) = (n : ℚ) - 1 := by push_cast; ring
  rw [hcast]
  have hn1 : (0 : ℚ) ≤ (n : ℚ) - 1 := by
    have h : (1 : ℚ) ≤ n := by exact_mod_cast hn
    linarith
  constructor
  · apply Int.floor_nonneg.mpr
    have := mul_nonneg h0 hn1
    linarith
  · apply Int.floor_lt.mpr
    have hle : u * ((n : ℚ) - 1) ≤ (n : ℚ) - 1 := by nlinarith
    push_cast
    linarith

/-- Folding the num argument 2 and the added half of Math.round into a
single fraction, for the dyadic draw k / 2^53. -/
lemma random_dyadic_form (k : ℕ) :
    random ((k : ℚ) / 2 ^ 53) 2 = ⌊((k : ℚ) + 2 ^ 51) / 2 ^ 52⌋ := by
  unfold random
  congr 1
  field_simp
  ring

lemma random_dyadic_eq_iff (k : ℕ) (z : ℤ) :
    random ((k : ℚ) / 2 ^ 53) 2 = z ↔
      (z : ℚ) * 2 ^ 52 ≤ (k : ℚ) + 2 ^ 51 ∧ (k : ℚ) + 2 ^ 51 < ((z : ℚ) + 1) * 2 ^ 52 := by
  rw [random_dyadic_form, Int.floor_eq_iff, le_div_iff₀ (by norm_num), div_lt_iff₀ (by norm_num)]

lemma random_dyadic_eq_zero (k : ℕ) :
    random ((k : ℚ) / 2 ^ 53) 2 = 0 ↔ k < 2 ^ 51 := by
  rw [random_dyadic_eq_iff]
  norm_num
  constructor
  · rintro ⟨-, h⟩
    exact_mod_cast (show (k : ℚ) < 2251799813685248 by linarith)
  · intro h
    have hq : (k : ℚ) < 2251799813685248 := by exact_mod_cast h
    constructor
    · positivity
    · linarith

lemma random_dyadic_eq_one (k : ℕ) :
    random ((k : ℚ) / 2 ^ 53) 2 = 1 ↔ 2 ^ 51 ≤ k ∧ k < 3 * 2 ^ 51 := by
  rw [random_dyadic_eq_iff]
  norm_num
  constructor
  · rintro ⟨h1, h2⟩
    constructor
    · exact_mod_cast (show (2251799813685248 : ℚ) ≤ k by linarith)
    · exact_mod_cast (show (k : ℚ) < 6755399441055744 by linarith)
  · rintro ⟨h1, h2⟩
    have hq1 : (2251799813685248 : ℚ) ≤ k := by exact_mod_cast h1
    have hq2 : (k : ℚ) < 6755399441055744 := by exact_mod_cast h2
    constructor
    · linarith
    · linarith

lemma random_dyadic_eq_two (k : ℕ) (hk : k < 2 ^ 53) :
    random ((k : ℚ) / 2 ^ 53) 2 = 2 ↔ 3 * 2 ^ 51 ≤ k := by
  rw [random_dyadic_eq_iff]
  norm_num at hk ⊢
  constructor
  · rintro ⟨h1, -⟩
    exact_mod_cast (show (6755399441055744 : ℚ) ≤ k by linarith)
  · intro h1
    have hq1 : (6755399441055744 : ℚ) ≤ k := by exact_mod_cast h1
    have hq2 : (k : ℚ) < 9007199254740992 := by exact_mod_cast hk
    constructor
    · linarith
    · linarith

/-- Count of dyadic draws selecting index 0 from a three-element source:
a quarter of them. -/
lemma filter_random_zero_card :
    ((Finset.range (2 ^ 53)).filter (fun k : ℕ => random ((k : ℚ) / 2 ^ 53) 2 = 0)).card =
      2 ^ 51 := by
  have he : (Finset.range (2 ^ 53)).filter (fun k : ℕ => random ((k : ℚ) / 2 ^ 53) 2 = 0) =
      Finset.range (2 ^ 51) := by
    ext k
    simp only [Finset.mem_filter, Finset.mem_range]
    constructor
    · rintro ⟨-, h⟩
      exact (random_dyadic_eq_zero k).mp h
    · intro hk
      exact ⟨lt_trans hk (by norm_num), (random_dyadic_eq_zero k).mpr hk⟩
  rw [he, Finset.card_range]

/-- Count of dyadic draws selecting index 1 from a three-element source:
half of them. -/
lemma filter_random_one_card :
    ((Finset.range (2 ^ 53)).filter (fun k : ℕ => random ((k : ℚ) / 2 ^ 53) 2 = 1)).card =
      2 ^ 52 := by
  have he : (Finset.range (2 ^ 53)).filter (fun k : ℕ => random ((k : ℚ) / 2 ^ 53) 2 = 1) =
      Finset.Ico (2 ^ 51) (3 * 2 ^ 51) := by
    ext k
    simp only [Finset.mem_filter, Finset.mem_range, Finset.mem_Ico]
    constructor
    · rintro ⟨-, h⟩
      exact (random_dyadic_eq_one k).mp h
    · rintro ⟨h1, h2⟩
      exact ⟨lt_trans h2 (by norm_num), (random_dyadic_eq_one k).mpr ⟨h1, h2⟩⟩
  rw [he, Nat.card_Ico]
  norm_num

/-- Count of dyadic draws selecting index 2 from a three-element source:
a quarter of them. -/
lemma filter_random_two_card :
    ((Finset.range (2 ^ 53)).filter (fun k : ℕ => random ((k : ℚ) / 2 ^ 53) 2 = 2)).card =
      2 ^ 51 := by
  have he : (Finset.range (2 ^ 53)).filter (fun k : ℕ => random ((k : ℚ) / 2 ^ 53) 2 = 2) =
      Finset.Ico (3 * 2 ^ 51) (2 ^ 53) := by
    ext k
    simp only [Finset.mem_filter, Finset.mem_range, Finset.mem_Ico]
    constructor
    · rintro ⟨hk, h⟩
      exact ⟨(random_dyadic_eq_two k hk).mp h, hk⟩
    · rintro ⟨h1, h2⟩
      exact ⟨h2, (random_dyadic_eq_two k h2).mpr h1⟩
  rw [he, Nat.card_Ico]
  norm_num

/-- C6 counterexample: under the faithful model of Math.random (a uniform
draw over the 2^53 dyadic rationals k / 2^53 in [0,1)), the number of
draws that select index 0 of a three-element randomNotes source differs
from the number that select index 1 (2^51 versus 2^52), so
getNote does not pick every element with equal probability. -/
theorem getNote_uniform_counterexample :
    ((Finset.range (2 ^ 53)).filter (fun k : ℕ => random ((k : ℚ) / 2 ^ 53) 2 = 0)).card ≠
      ((Finset.range (2 ^ 53)).filter (fun k : ℕ => random ((k : ℚ) / 2 ^ 53) 2 = 1)).card := by
  rw [filter_random_zero_card, filter_random_one_card]
  norm_num

/-- C6 (amended): for an R step with a non-null randomNotes, getNote
selects randomNotes[Math.round(u * (randomNotes.length - 1))], whose
index is always within bounds for u in [0,1) and a non-empty source; for
every other step (and when randomNotes is absent) it selects
notes[counter mod notes.length].  The random selection is however not
uniform: under the uniform dyadic model of Math.random, a three-element
source is selected with probabilities 1/4, 1/2, 1/4 (counts 2^51, 2^52,
2^51 of the 2^53 draws), the boundary elements receiving half the weight
of the middle one. -/
theorem getNote_selection :
    (∀ (u : ℚ) (notes rn : List (List String)) (counter : ℕ), 0 ≤ u → u < 1 → rn ≠ [] →
      ∃ i : ℕ, i < rn.length ∧ getNote u 'R' notes (some rn) counter = rn.get? i) ∧
    (∀ (u : ℚ) (el : Char) (notes : List (List String))
        (rn : Option (List (List String))) (counter : ℕ), el ≠ 'R' ∨ rn = none →
      getNote u el notes rn counter = notes.get? (counter % notes.length)) ∧
    (((Finset.range (2 ^ 53)).filter (fun k : ℕ => random ((k : ℚ) / 2 ^ 53) 2 = 0)).card =
        2 ^ 51 ∧
     ((Finset.range (2 ^ 53)).filter (fun k : ℕ => random ((k : ℚ) / 2 ^ 53) 2 = 1)).card =
        2 ^ 52 ∧
     ((Finset.range (2 ^ 53)).filter (fun k : ℕ => random ((k : ℚ) / 2 ^ 53) 2 = 2)).card =
        2 ^ 51) := by
  refine ⟨?rand, ?cycle, filter_random_zero_card, filter_random_one_card,
    filter_random_two_card⟩
  case rand =>
    intro u notes rn counter h0 h1 hne
    have hlen : 0 < rn.length := List.length_pos.mpr hne
    obtain ⟨hge, hlt⟩ := random_bounds u rn.length h0 h1 hlen
    refine ⟨(random u ((rn.length : ℤ) - 1)).toNat, by omega, ?_⟩
    unfold getNote
    rw [if_pos ⟨rfl, by simp⟩]
    simp only [Option.getD_some]
    unfold jsIndex
    rw [if_neg (by omega)]
  case cycle =>
    intro u el notes rn counter h
    unfold getNote
    rw [if_neg (by tauto)]

/-- C6 witness: the amended claim applied at concrete inputs: a draw of
1/2 from a singleton random source, and an x step under a two-note
source. -/
theorem getNote_selection_witness :
    (∃ i : ℕ, i < 1 ∧ getNote (1 / 2) 'R' [] (some [["C4"]]) 0 = [["C4"]].get? i) ∧
    getNote (1 / 2) 'x' [["C4"], ["D4"]] none 3 = [["C4"], ["D4"]].get? (3 % 2) :=
  ⟨getNote_selection.1 (1 / 2) [] [["C4"]] 0 (by norm_num) (by norm_num) (by simp),
   getNote_selection.2.1 (1 / 2) 'x' [["C4"], ["D4"]] none 3 (Or.inl (by decide))⟩
